import Mathlib

/-
  Verification of the linuxjobs core (pkg/linuxjobs) of the lpaas repository.

  Shallow embedding: each Lean definition below is translated from the Go
  source (job.go, jobmanager.go, cgroup.go).  Concurrency is sequentialized:
  the monitor goroutine's effect is the `Job.reap` function applied when the
  child is reaped, the closed `done` channel is the Boolean `doneClosed`,
  and `jobContext.Err() != nil` is the Boolean `cancelled` (the source notes
  that the only way the job context errs is the stop() cancel call).
  Fallible Go functions returning `error` become `Except`/`Option` values;
  I/O outcomes (cmd.Wait, cgroup.delete, file writes) are oracle parameters.
-/

namespace Lpaas

/-- Lifecycle state of a job (`status` in job.go). -/
inductive Status
  | unknown
  | running
  | stopped
  | exited
  | failed
deriving DecidableEq

/-- `status.String()` from job.go. -/
def Status.render : Status → String
  | .running => "Running"
  | .stopped => "Stopped"
  | .exited => "Exited"
  | .failed => "Failed"
  | .unknown => "Unknown"

/-- The reaped child's state inside an `exec.ExitError`: either exited with a
code, or terminated by a signal (in which case Go's `ExitCode()` reports -1). -/
inductive ProcState
  | exitedWith (code : Int)
  | signaled
deriving DecidableEq

/-- `(*exec.ExitError).ExitCode()`. -/
def ProcState.exitCodeOf : ProcState → Int
  | .exitedWith c => c
  | .signaled => -1

/-- An error value returned by `cmd.Wait()` or by the cgroup cleanup:
either an `exec.ExitError` wrapping the process state, or any other error. -/
inductive GoError
  | exitError (ps : ProcState)
  | otherErr (msg : String)
deriving DecidableEq

/-- `exitCodeFromErr` from job.go: nil error yields 0; an `exec.ExitError`
yields its `ExitCode()`; any other error yields -1. -/
def exitCodeFromErr : Option GoError → Int
  | none => 0
  | some (.exitError ps) => ps.exitCodeOf
  | some (.otherErr _) => -1

/-- `lockedBuffer` from job.go: the `bytes.Buffer` content `b` and the
running length counter `n` (bytes are modelled as natural numbers). -/
structure LockedBuffer where
  b : List Nat
  n : Nat
deriving DecidableEq

/-- `lockedBuffer.write`: append to the buffer and add the written count
(`bytes.Buffer.Write` always writes all of `p`) to the counter. -/
def LockedBuffer.write (l : LockedBuffer) (p : List Nat) : LockedBuffer × Nat :=
  ({ b := l.b ++ p, n := l.n + p.length }, p.length)

/-- `lockedBuffer.len`: the length counter. -/
def LockedBuffer.len (l : LockedBuffer) : Nat := l.n

/-- `lockedBuffer.bytes`: a clone of the buffer content. -/
def LockedBuffer.bytes (l : LockedBuffer) : List Nat := l.b

/-- The only error a read can surface (`io.EOF`). -/
inductive RErr
  | eofErr
deriving DecidableEq

/-- `lockedBuffer.readAt`: at an offset past the counter report end of
stream, otherwise copy `min dstLen (remaining)` bytes out of the buffer
content (Go's `copy(p, buf[offset:])`). Returns the copied bytes and the
error slot of the `(int, error)` pair. -/
def LockedBuffer.readAt (l : LockedBuffer) (dstLen off : Nat) :
    List Nat × Option RErr :=
  if l.n ≤ off then ([], some .eofErr)
  else ((l.b.drop off).take dstLen, none)

/-- Outcome of one `streamingReader.Read` call: a return `(n, err)` carrying
the copied bytes and error slot, or a suspension (offset at end, job not
done: the call parks on the notification channel). -/
inductive ReadResult
  | ret (bytes : List Nat) (e : Option RErr)
  | blocked
deriving DecidableEq

/-- The bytes a `ReadResult` copied out (none when suspended). -/
def ReadResult.bytesOut : ReadResult → List Nat
  | .ret bs _ => bs
  | .blocked => []

/-- One iteration of `streamingReader.Read` from job.go against a buffer
snapshot: if the reader's offset is below the counter, delegate to `readAt`;
at the end, a fired done latch yields `(0, io.EOF)` after the final length
recheck; otherwise the reader parks on its notification channel. -/
def streamingRead (buf : LockedBuffer) (done : Bool) (off d : Nat) : ReadResult :=
  if off < buf.len then
    let p := buf.readAt d off
    .ret p.1 p.2
  else if done then .ret [] (some .eofErr)
  else .blocked

/-- `streamingReader.Read` including the cursor update `r.offset += n`:
returns the call outcome and the reader's new offset. -/
def streamingReadStep (buf : LockedBuffer) (done : Bool) (off d : Nat) :
    ReadResult × Nat :=
  match streamingRead buf done off d with
  | .ret bs e => (.ret bs e, off + bs.length)
  | .blocked => (.blocked, off)

/-- `streamingReader` from job.go: the reader's identity (its map key),
its cursor, and whether its notification channel has been closed. -/
structure SReader where
  rid : Nat
  offset : Nat
  chClosed : Bool
deriving DecidableEq

/-- What `job.stream` hands back: a snapshot reader over a byte copy
(`io.NopCloser(bytes.NewReader(...))`) for a terminal job, or a live
registered `streamingReader`. -/
inductive StreamHandle
  | snapshot (data : List Nat)
  | live (r : SReader)
deriving DecidableEq

/-- Errors surfaced by the job and manager layers, mirroring the
`fmt.Errorf` shapes in jobmanager.go and job.go, and `errors.Join`. -/
inductive SvcError
  | notFound (id : String)
  | notRunning (id : String)
  | stopWrap (e : SvcError)
  | joined (reapErr cleanupErr : Option GoError)
deriving DecidableEq

/-- `errors.Join(exitErr, cleanupErr)`: nil iff both are nil. -/
def joinErrs : Option GoError → Option GoError → Option SvcError
  | none, none => none
  | a, b => some (.joined a b)

/-- `job` from job.go. `cancelled` models `jobContext.Err() != nil` (set
exactly by `cancel()`), `doneClosed` models the closed `done` channel,
`readers` holds the map keys of the registered streaming readers, and
`nextRid` is the identity source for fresh readers. -/
structure Job where
  ID : String
  command : String
  args : List String
  cleanupErr : Option GoError
  status : Status
  exitErr : Option GoError
  exitCode : Int
  cancelled : Bool
  doneClosed : Bool
  outBuf : LockedBuffer
  readers : List Nat
  nextRid : Nat
deriving DecidableEq

/-- The record built by `newJob` (before `start`). -/
def mkJob (id cmd : String) (args : List String) : Job :=
  { ID := id, command := cmd, args := args, cleanupErr := none,
    status := .unknown, exitErr := none, exitCode := 0,
    cancelled := false, doneClosed := false,
    outBuf := { b := [], n := 0 }, readers := [], nextRid := 0 }

/-- The monitor goroutine body in `job.start` (job.go lines 130-153), run
when `cmd.Wait` returns `err` and `cgroup.delete` returns `cleanup`:
record the reap error and derived exit code; classify the terminal status
(`jobContext.Err() != nil` i.e. `cancelled` wins, then nil vs non-nil reap
error); record a cleanup failure without touching status; close `done`. -/
def Job.reap (j : Job) (err cleanup : Option GoError) : Job :=
  { j with
    exitErr := err
    exitCode := exitCodeFromErr err
    status :=
      if j.cancelled then .stopped
      else if err = none then .exited
      else .failed
    cleanupErr :=
      match cleanup with
      | some e => some e
      | none => j.cleanupErr
    doneClosed := true }

/-- `job.stop` from job.go: a job that is not running fails with the
"job <id> not running" error and is left untouched; a running job has its
context cancelled and the call blocks on `<-j.done`, i.e. the returned
state is the one the monitor produced after the reap (with `cancelled`
set, so the monitor classifies the termination as stopped). The reap and
cleanup outcomes are oracle arguments. -/
def Job.stop (j : Job) (reapErr cleanupErr : Option GoError) :
    Except SvcError Unit × Job :=
  if j.status ≠ .running then (.error (.notRunning j.ID), j)
  else (.ok (), ({ j with cancelled := true }).reap reapErr cleanupErr)

/-- `job.statusSnapshot`: status, exit code, and the joined reap and
cleanup errors. -/
def Job.statusSnapshot (j : Job) : Status × Int × Option SvcError :=
  (j.status, j.exitCode, joinErrs j.exitErr j.cleanupErr)

/-- `job.stream` from job.go: a terminal job yields a snapshot reader over
a copy of the buffer; otherwise a fresh `streamingReader` at offset 0 with
an open notification channel is registered in the reader map. -/
def Job.stream (j : Job) : StreamHandle × Job :=
  if j.status = .exited ∨ j.status = .failed ∨ j.status = .stopped then
    (.snapshot j.outBuf.bytes, j)
  else
    let r : SReader := { rid := j.nextRid, offset := 0, chClosed := false }
    (.live r, { j with readers := j.readers ++ [r.rid], nextRid := j.nextRid + 1 })

/-- `streamingReader.Close` from job.go: delete the reader from the job's
map, then `close(r.newData)`. Closing an already-closed channel panics in
Go; the panic is modelled as `none`. -/
def Job.closeReader (j : Job) (r : SReader) : Option (Job × SReader) :=
  let j1 : Job := { j with readers := j.readers.filter (fun x => x ≠ r.rid) }
  if r.chClosed then none
  else some (j1, { r with chClosed := true })

/-- `JobManager` from jobmanager.go: the registry, as an association list
from job identifier to job record. -/
structure JobManager where
  jobs : List (String × Job)
deriving DecidableEq

/-- Go map lookup `jm.jobs[jobID]`. -/
def lookupJob : List (String × Job) → String → Option Job
  | [], _ => none
  | (k, v) :: rest, id => if k = id then some v else lookupJob rest id

/-- Go map update of an existing key (the job pointer is mutated in place
in the source; here the binding is replaced). -/
def updateJob : List (String × Job) → String → Job → List (String × Job)
  | [], _, _ => []
  | (k, v) :: rest, id, j =>
    if k = id then (k, j) :: updateJob rest id j
    else (k, v) :: updateJob rest id j

/-- `JobManager.StopJob` from jobmanager.go: look the job up (absent id
fails with "job <id> not found"), invoke `job.stop` (a failure is wrapped
as "stop job: ..."), wait on `<-job.done`, then set the job's status to
stopped. -/
def JobManager.stopJob (jm : JobManager) (jobID : String)
    (reapErr cleanupErr : Option GoError) : Except SvcError Unit × JobManager :=
  match lookupJob jm.jobs jobID with
  | none => (.error (.notFound jobID), jm)
  | some job =>
    match job.stop reapErr cleanupErr with
    | (.error e, _) => (.error (.stopWrap e), jm)
    | (.ok _, j1) =>
      (.ok (), { jobs := updateJob jm.jobs jobID { j1 with status := .stopped } })

/-- `JobManager.Status` from jobmanager.go: an absent id yields
("Unknown", nil, not-found error); otherwise the snapshot's status string,
the exit code only when the status is terminal, and the joined error. -/
def JobManager.statusQuery (jm : JobManager) (jobID : String) :
    String × Option Int × Option SvcError :=
  match lookupJob jm.jobs jobID with
  | none => ("Unknown", none, some (.notFound jobID))
  | some j =>
    let s := j.statusSnapshot
    let code : Option Int :=
      if s.1 = .exited ∨ s.1 = .failed ∨ s.1 = .stopped then some s.2.1 else none
    (s.1.render, code, s.2.2)

/-- `JobManager.StreamJob` from jobmanager.go: absent id fails with the
not-found error, otherwise delegate to `job.stream`. -/
def JobManager.streamJob (jm : JobManager) (jobID : String) :
    Except SvcError StreamHandle × JobManager :=
  match lookupJob jm.jobs jobID with
  | none => (.error (.notFound jobID), jm)
  | some j =>
    let p := j.stream
    (.ok p.1, { jobs := updateJob jm.jobs jobID p.2 })

/-- `JobManager.JobExists` from jobmanager.go. -/
def JobManager.jobExists (jm : JobManager) (jobID : String) : Bool :=
  (lookupJob jm.jobs jobID).isSome

/-- Looking up a key after the registry update at that key yields the new
job, provided the key was present. -/
theorem lookupJob_updateJob (l : List (String × Job)) (id : String) (j0 j : Job)
    (h : lookupJob l id = some j0) : lookupJob (updateJob l id j) id = some j := by
  induction l with
  | nil => simp [lookupJob] at h
  | cons kv rest ih =>
    obtain ⟨k, v⟩ := kv
    by_cases hk : k = id
    · simp [lookupJob, updateJob, hk]
    · simp only [lookupJob, updateJob, if_neg hk] at h ⊢
      exact ih h

/-- A sample freshly started job, used to instantiate theorems. -/
def runningJob : Job := { mkJob "job-1" "sleep" ["5"] with status := .running }

/-- A sample one-job registry. -/
def jmSample : JobManager := { jobs := [("job-1", runningJob)] }

/-- The registry after stopping the sample job (clean reap, clean cleanup). -/
def jmStopped : JobManager := (jmSample.stopJob "job-1" none none).2

/-- Claim C2: the derived exit code is 0 when the reap error is nil, the
process's reported exit code when the reap error is an `exec.ExitError`
carrying one, and -1 in every other case (signal termination, where Go's
`ExitCode()` itself reports -1, or an error that is not an
`exec.ExitError`). -/
theorem claim2_exit_code_derivation :
    exitCodeFromErr none = 0 ∧
    (∀ c : Int, exitCodeFromErr (some (.exitError (.exitedWith c))) = c) ∧
    exitCodeFromErr (some (.exitError .signaled)) = -1 ∧
    (∀ m : String, exitCodeFromErr (some (.otherErr m)) = -1) := by
  refine ⟨rfl, fun c => rfl, rfl, fun m => rfl⟩

/-- Claim C1: when the child is reaped, the final status is stopped if the
cancellation fired (regardless of the reap error), exited if the reap error
is nil and no cancellation fired, and failed if the reap error is non-nil
and no cancellation fired; and after a successful stop-job call, a status
query reports "Stopped". -/
theorem claim1_terminal_status_classification :
    (∀ (j : Job) (err cleanup : Option GoError),
      (j.cancelled = true → (j.reap err cleanup).status = .stopped) ∧
      (j.cancelled = false → err = none → (j.reap err cleanup).status = .exited) ∧
      (j.cancelled = false → err ≠ none → (j.reap err cleanup).status = .failed)) ∧
    (∀ (jm jm' : JobManager) (id : String) (e c : Option GoError),
      jm.stopJob id e c = (.ok (), jm') → (jm'.statusQuery id).1 = "Stopped") := by
  constructor
  · intro j err cleanup
    refine ⟨fun hc => ?_, fun hc hn => ?_, fun hc hn => ?_⟩
    · simp [Job.reap, hc]
    · simp [Job.reap, hc, hn]
    · simp [Job.reap, hc, hn]
  · intro jm jm' id e c h
    cases hl : lookupJob jm.jobs id with
    | none => simp [JobManager.stopJob, hl] at h
    | some job =>
      by_cases hs : job.status = .running
      · have hstop : job.stop e c = (.ok (), ({ job with cancelled := true }).reap e c) := by
          simp [Job.stop, hs]
        simp only [JobManager.stopJob, hl, hstop] at h
        have hjm : jm' =
            { jobs := updateJob jm.jobs id
                { ({ job with cancelled := true }).reap e c with status := .stopped } } := by
          exact (Prod.mk.injEq _ _ _ _ ▸ h).2.symm ▸ rfl
        have hl2 : lookupJob jm'.jobs id =
            some { ({ job with cancelled := true }).reap e c with status := .stopped } := by
          rw [congrArg JobManager.jobs hjm]
          exact lookupJob_updateJob jm.jobs id job _ hl
        simp [JobManager.statusQuery, hl2, Job.statusSnapshot, Status.render]
      · have hstop : job.stop e c = (.error (.notRunning job.ID), job) := by
          simp [Job.stop, hs]
        simp [JobManager.stopJob, hl, hstop] at h
theorem claim1_witness :
    (jmStopped.statusQuery "job-1").1 = "Stopped" ∧
    ({ runningJob with cancelled := true }.reap (some (.otherErr "killed")) none).status
      = .stopped := by
  constructor
  · exact claim1_terminal_status_classification.2 jmSample jmStopped "job-1" none none rfl
  · exact (claim1_terminal_status_classification.1
      { runningJob with cancelled := true } (some (.otherErr "killed")) none).1 rfl

/-- Claim C6: stopping a job whose status is not running fails with the
precondition error carrying "not running" and leaves the job unchanged;
stopping a running job succeeds, triggers the cancellation, and returns
only once the termination latch has fired (the post-state is the one the
monitor produced, with the done channel closed). -/
theorem claim6_stop_precondition :
    ∀ (j : Job) (e c : Option GoError),
      (j.status ≠ .running → j.stop e c = (.error (.notRunning j.ID), j)) ∧
      (j.status = .running →
        (j.stop e c).1 = .ok () ∧
        (j.stop e c).2.cancelled = true ∧
        (j.stop e c).2.doneClosed = true ∧
        (j.stop e c).2 = ({ j with cancelled := true }).reap e c) := by
  intro j e c
  constructor
  · intro hs
    simp [Job.stop, hs]
  · intro hs
    refine ⟨?_, ?_, ?_, ?_⟩ <;> simp [Job.stop, hs, Job.reap]
theorem claim6_witness :
    ({ runningJob with status := .exited }.stop none none
        = (.error (.notRunning "job-1"), { runningJob with status := .exited })) ∧
    (runningJob.stop none none).1 = .ok () ∧
    (runningJob.stop none none).2.doneClosed = true := by
  refine ⟨?_, ?_, ?_⟩
  · exact (claim6_stop_precondition { runningJob with status := .exited } none none).1
      (by decide)
  · exact ((claim6_stop_precondition runningJob none none).2 rfl).1
  · exact ((claim6_stop_precondition runningJob none none).2 rfl).2.2.1

/-- Claim C7: for an identifier absent from the registry, stop-job,
get-status, and stream-output each return the not-found error and leave
the registry untouched; and a stop-job can only succeed when the registry
contains the identifier. -/
theorem claim7_not_found :
    ∀ (jm : JobManager) (id : String) (e c : Option GoError),
      (lookupJob jm.jobs id = none →
        jm.stopJob id e c = (.error (.notFound id), jm) ∧
        jm.statusQuery id = ("Unknown", none, some (.notFound id)) ∧
        jm.streamJob id = (.error (.notFound id), jm)) ∧
      ((jm.stopJob id e c).1 = .ok () → (lookupJob jm.jobs id).isSome = true) := by
  intro jm id e c
  constructor
  · intro h
    refine ⟨?_, ?_, ?_⟩ <;> simp [JobManager.stopJob, JobManager.statusQuery,
      JobManager.streamJob, h]
  · intro h
    cases hl : lookupJob jm.jobs id with
    | none => simp [JobManager.stopJob, hl] at h
    | some job => rfl
theorem claim7_witness :
    ((JobManager.mk []).stopJob "job-x" none none
        = (.error (.notFound "job-x"), JobManager.mk [])) ∧
    (lookupJob jmSample.jobs "job-1").isSome = true := by
  constructor
  · exact ((claim7_not_found (JobManager.mk []) "job-x" none none).1 rfl).1
  · exact (claim7_not_found jmSample "job-1" none none).2 rfl

/-- Claim C8: for a registered job, get-status reports an exit code (the
job's derived exit code) exactly when the status is exited, failed, or
stopped; while the status is running the exit code is absent. -/
theorem claim8_exit_code_presence :
    ∀ (jm : JobManager) (id : String) (j : Job),
      lookupJob jm.jobs id = some j →
      (((jm.statusQuery id).2.1.isSome = true) ↔
        (j.status = .exited ∨ j.status = .failed ∨ j.status = .stopped)) ∧
      ((j.status = .exited ∨ j.status = .failed ∨ j.status = .stopped) →
        (jm.statusQuery id).2.1 = some j.exitCode) ∧
      (j.status = .running → (jm.statusQuery id).2.1 = none) := by
  intro jm id j h
  by_cases ht : j.status = .exited ∨ j.status = .failed ∨ j.status = .stopped
  · refine ⟨?_, ?_, ?_⟩
    · simp [JobManager.statusQuery, h, Job.statusSnapshot, ht]
    · intro _
      simp [JobManager.statusQuery, h, Job.statusSnapshot, ht]
    · intro hr
      rcases ht with h1 | h1 | h1 <;> rw [hr] at h1 <;> exact absurd h1 (by decide)
  · refine ⟨?_, fun h1 => absurd h1 ht, ?_⟩
    · simp [JobManager.statusQuery, h, Job.statusSnapshot, ht]
    · intro _
      simp [JobManager.statusQuery, h, Job.statusSnapshot, ht]
theorem claim8_witness :
    ((jmSample.statusQuery "job-1").2.1 = none) ∧
    ((jmStopped.statusQuery "job-1").2.1.isSome = true) := by
  constructor
  · exact (claim8_exit_code_presence jmSample "job-1" runningJob rfl).2.2 rfl
  · exact (claim8_exit_code_presence jmStopped "job-1" _ rfl).1.mpr (Or.inr (Or.inr rfl))

/-- Claim C10: a streaming reader returned by stream on a non-terminal job
can be closed once — the close removes it from the job's reader set and
closes its notification channel — and a second close on the same reader
panics (it closes an already-closed channel), so close is not idempotent. -/
theorem claim10_close_once :
    ∀ (j j1 : Job) (r : SReader),
      ¬(j.status = .exited ∨ j.status = .failed ∨ j.status = .stopped) →
      j.stream = (.live r, j1) →
      ∃ (j2 : Job) (r2 : SReader),
        j1.closeReader r = some (j2, r2) ∧
        r2.chClosed = true ∧
        r.rid ∉ j2.readers ∧
        j2.closeReader r2 = none := by
  intro j j1 r ht h
  rw [Job.stream, if_neg ht] at h
  have hr : r = { rid := j.nextRid, offset := 0, chClosed := false } :=
    ((Prod.mk.injEq _ _ _ _).mp h).1 |> StreamHandle.live.inj |>.symm
  have hj1 : j1 = { j with readers := j.readers ++ [j.nextRid], nextRid := j.nextRid + 1 } :=
    (((Prod.mk.injEq _ _ _ _).mp h).2).symm
  subst hr hj1
  refine ⟨_, _, rfl, rfl, ?_, rfl⟩
  intro hmem
  have := List.of_mem_filter hmem
  simp at this
theorem claim10_witness :
    ∃ (j2 : Job) (r2 : SReader),
      ((runningJob.stream).2).closeReader { rid := 0, offset := 0, chClosed := false }
          = some (j2, r2) ∧
      r2.chClosed = true ∧
      (0 : Nat) ∉ j2.readers ∧
      j2.closeReader r2 = none := by
  exact claim10_close_once runningJob (runningJob.stream).2
    { rid := 0, offset := 0, chClosed := false } (by decide) rfl

/-- The second projection of a Read call always equals the old offset plus
the number of bytes copied out (`r.offset += n`). -/
theorem streamingReadStep_snd (buf : LockedBuffer) (dn : Bool) (off d : Nat) :
    (streamingReadStep buf dn off d).2
      = off + ((streamingReadStep buf dn off d).1.bytesOut).length := by
  rw [streamingReadStep]
  cases streamingRead buf dn off d <;> simp [ReadResult.bytesOut]

/-- Claim C4 (amended): for a reader whose cursor is strictly below the log
length and a nonempty destination, Read copies up to the destination size
of bytes starting at the cursor, advances the cursor by exactly the number
copied, returns that (positive) count with no error, and so never returns
0 with no error while unread data remains; the amendment excepts the
zero-length destination, for which Read returns 0 bytes and no error. -/
theorem claim4_read_semantics :
    ∀ (buf : LockedBuffer) (dn : Bool) (off d : Nat),
      buf.n = buf.b.length →
      off < buf.len →
      1 ≤ d →
      ∃ bs : List Nat,
        streamingReadStep buf dn off d = (.ret bs none, off + bs.length) ∧
        bs = (buf.b.drop off).take d ∧
        bs.length = min d (buf.len - off) ∧
        1 ≤ bs.length ∧ bs.length ≤ d := by
  intro buf dn off d hwf hoff hd
  have hoffn : off < buf.n := hoff
  refine ⟨(buf.b.drop off).take d, ?_, rfl, ?_, ?_, ?_⟩
  · simp [streamingReadStep, streamingRead, LockedBuffer.readAt, LockedBuffer.len,
      hoffn, Nat.not_le.mpr hoffn]
  · simp only [List.length_take, List.length_drop, LockedBuffer.len]
    omega
  · simp only [List.length_take, List.length_drop]
    omega
  · simp only [List.length_take, List.length_drop]
    omega
theorem claim4_witness :
    ∃ bs : List Nat,
      streamingReadStep { b := [7, 8], n := 2 } false 0 1 = (.ret bs none, 0 + bs.length) ∧
      bs = (([7, 8] : List Nat).drop 0).take 1 ∧
      bs.length = min 1 (LockedBuffer.len { b := [7, 8], n := 2 } - 0) ∧
      1 ≤ bs.length ∧ bs.length ≤ 1 :=
  claim4_read_semantics { b := [7, 8], n := 2 } false 0 1 rfl (by decide) (by decide)

/-- Claim C4 counterexample: with a one-byte log, a cursor of 0 (strictly
below the length) and a zero-length destination, Read returns 0 bytes with
no error even though unread data remains. -/
theorem claim4_counterexample :
    streamingRead { b := [7], n := 1 } false 0 0 = .ret [] none ∧
    0 < LockedBuffer.len { b := [7], n := 1 } := by
  exact ⟨rfl, by decide⟩

/-- The shared-log state: the locked buffer, the registered readers'
cursors, and the termination latch. -/
structure LogState where
  buf : LockedBuffer
  cursors : List Nat
  done : Bool
deriving DecidableEq

/-- The operations that touch the output log: an append by the notifying
writer, registration of a new reader (cursor 0), one Read call by reader
`i`, and the firing of the termination latch. -/
inductive LogOp
  | append (p : List Nat)
  | attach
  | readOp (i : Nat) (dstLen : Nat)
  | finish
deriving DecidableEq

/-- Interpretation of one log operation over the state, each clause
translated from the corresponding source function (`lockedBuffer.write`,
`job.stream` registration, `streamingReader.Read`, `close(done)`). -/
def LogState.step (s : LogState) : LogOp → LogState
  | .append p => { s with buf := (s.buf.write p).1 }
  | .attach => { s with cursors := s.cursors ++ [0] }
  | .readOp i d =>
    match s.cursors[i]? with
    | none => s
    | some off =>
      { s with cursors := s.cursors.set i (streamingReadStep s.buf s.done off d).2 }
  | .finish => { s with done := true }

/-- The empty log of a fresh job. -/
def LogState.init : LogState := { buf := { b := [], n := 0 }, cursors := [], done := false }

/-- Run a sequence of log operations. -/
def LogState.run (s : LogState) (ops : List LogOp) : LogState := ops.foldl LogState.step s

/-- Bytes an operation appends. -/
def LogOp.appendSize : LogOp → Nat
  | .append p => p.length
  | _ => 0

/-- Total bytes ever appended by a sequence of operations. -/
def appendTotal (ops : List LogOp) : Nat := (ops.map LogOp.appendSize).sum

/-- The log invariant: the counter equals the content length and every
cursor is bounded by the counter. -/
def LogInv (s : LogState) : Prop :=
  s.buf.n = s.buf.b.length ∧ ∀ c ∈ s.cursors, c ≤ s.buf.n

/-- One step preserves the log invariant. -/
theorem LogInv_step (s : LogState) (op : LogOp) (h : LogInv s) : LogInv (s.step op) := by
  obtain ⟨hwf, hcur⟩ := h
  cases op with
  | append p =>
    refine ⟨?_, ?_⟩
    · simp [LogState.step, LockedBuffer.write, hwf]
    · intro c hc
      have := hcur c hc
      simp only [LogState.step, LockedBuffer.write]
      omega
  | attach =>
    refine ⟨hwf, ?_⟩
    intro c hc
    simp only [LogState.step, List.mem_append, List.mem_singleton] at hc
    rcases hc with hc | hc
    · exact hcur c hc
    · omega
  | readOp i d =>
    cases hg : s.cursors[i]? with
    | none => exact ⟨by simp [LogState.step, hg, hwf], by simp [LogState.step, hg]; exact hcur⟩
    | some off =>
      have hoffmem : off ∈ s.cursors := by
        obtain ⟨hlt, he⟩ := List.getElem?_eq_some.mp hg
        exact he ▸ List.getElem_mem hlt
      have hoffle : off ≤ s.buf.n := hcur off hoffmem
      have hbound : (streamingReadStep s.buf s.done off d).2 ≤ s.buf.n := by
        rw [streamingReadStep]
        by_cases hlt : off < s.buf.len
        · have hltn : off < s.buf.n := hlt
          simp only [streamingRead, LockedBuffer.readAt, LockedBuffer.len, if_pos hltn,
            if_neg (Nat.not_le.mpr hltn)]
          simp only [List.length_take, List.length_drop]
          omega
        · simp only [streamingRead, LockedBuffer.len] at hlt ⊢
          rw [if_neg hlt]
          by_cases hdn : s.done = true
          · simp [hdn]
            omega
          · simp only [Bool.not_eq_true] at hdn
            simp [hdn]
            omega
      refine ⟨by simp [LogState.step, hg, hwf], ?_⟩
      intro c hc
      simp only [LogState.step, hg] at hc ⊢
      rcases List.mem_or_eq_of_mem_set hc with hc | hc
      · exact hcur c hc
      · omega
  | finish => exact ⟨hwf, hcur⟩

/-- Running preserves the log invariant. -/
theorem LogInv_run (ops : List LogOp) : ∀ (s : LogState), LogInv s → LogInv (s.run ops) := by
  induction ops with
  | nil => intro s h; exact h
  | cons op rest ih =>
    intro s h
    exact ih (s.step op) (LogInv_step s op h)

/-- One step grows the counter by exactly the bytes the operation appends. -/
theorem step_counter (s : LogState) (op : LogOp) :
    (s.step op).buf.n = s.buf.n + op.appendSize := by
  cases op with
  | append p => simp [LogState.step, LockedBuffer.write, LogOp.appendSize]
  | attach => simp [LogState.step, LogOp.appendSize]
  | readOp i d =>
    cases hg : s.cursors[i]? with
    | none => simp [LogState.step, hg, LogOp.appendSize]
    | some off => simp [LogState.step, hg, LogOp.appendSize]
  | finish => simp [LogState.step, LogOp.appendSize]

/-- The counter after a run equals the starting counter plus the total
bytes appended. -/
theorem run_counter (ops : List LogOp) :
    ∀ (s : LogState), (s.run ops).buf.n = s.buf.n + appendTotal ops := by
  induction ops with
  | nil => intro s; simp [LogState.run, appendTotal]
  | cons op rest ih =>
    intro s
    have h1 : (s.run (op :: rest)).buf.n = ((s.step op).run rest).buf.n := rfl
    rw [h1, ih (s.step op), step_counter]
    simp [appendTotal]
    omega

/-- One step never modifies or removes bytes already in the log. -/
theorem step_append_only (s : LogState) (op : LogOp) :
    s.buf.b <+: (s.step op).buf.b := by
  cases op with
  | append p => exact List.prefix_append s.buf.b p
  | attach => exact List.prefix_rfl
  | readOp i d =>
    cases hg : s.cursors[i]? with
    | none => simp [LogState.step, hg]
    | some off => simp [LogState.step, hg]
  | finish => exact List.prefix_rfl

/-- Claim C5: over any sequence of log operations from the empty log, the
length counter equals the content length and the total bytes ever
appended; every cursor stays between 0 and the counter; no step modifies
or removes already-appended bytes; a Read call advances the calling
reader's cursor by exactly the number of bytes it copied out; and no other
operation moves an existing cursor. -/
theorem claim5_log_invariants :
    ∀ (ops : List LogOp),
      (LogState.init.run ops).buf.n = (LogState.init.run ops).buf.b.length ∧
      (LogState.init.run ops).buf.n = appendTotal ops ∧
      (∀ c ∈ (LogState.init.run ops).cursors, c ≤ (LogState.init.run ops).buf.n) ∧
      (∀ op : LogOp, (LogState.init.run ops).buf.b <+: ((LogState.init.run ops).step op).buf.b) ∧
      (∀ (i d off : Nat), (LogState.init.run ops).cursors[i]? = some off →
        ((LogState.init.run ops).step (.readOp i d)).cursors[i]? =
          some (off + ((streamingReadStep (LogState.init.run ops).buf
            (LogState.init.run ops).done off d).1.bytesOut).length)) ∧
      (∀ p : List Nat,
        ((LogState.init.run ops).step (.append p)).cursors = (LogState.init.run ops).cursors) ∧
      ((LogState.init.run ops).step .finish).cursors = (LogState.init.run ops).cursors := by
  intro ops
  have hinv := LogInv_run ops LogState.init ⟨rfl, by intro c hc; simp [LogState.init] at hc⟩
  refine ⟨hinv.1, ?_, hinv.2, step_append_only _, ?_, fun p => rfl, rfl⟩
  · have := run_counter ops LogState.init
    simpa [LogState.init] using this
  · intro i d off hg
    have hlt : i < (LogState.init.run ops).cursors.length := (List.getElem?_eq_some.mp hg).1
    simp only [LogState.step, hg]
    rw [List.getElem?_set_self' (l := (LogState.init.run ops).cursors)]
    · rw [hg, ← streamingReadStep_snd]
      simp
theorem claim5_witness :
    ((LogState.init.run [.attach, .append [5, 6], .readOp 0 1, .finish]).step
        (.readOp 0 5)).cursors[0]? = some (1 + 1) ∧
    (1 : Nat) ≤ (LogState.init.run [.attach, .append [5, 6], .readOp 0 1, .finish]).buf.n := by
  constructor
  · have h := (claim5_log_invariants [.attach, .append [5, 6], .readOp 0 1, .finish]).2.2.2.2.1
      0 5 1 (by decide)
    simpa using h
  · exact (claim5_log_invariants [.attach, .append [5, 6], .readOp 0 1, .finish]).2.2.1
      1 (by decide)

/-- A full consumption session of one streaming reader: each entry holds
the buffer snapshot the Read call observed, the done-latch state, and the
destination size; the run returns the concatenation of all bytes copied
out and the reader's final cursor. -/
def runSession : List (LockedBuffer × Bool × Nat) → Nat → List Nat × Nat
  | [], off => ([], off)
  | (buf, dn, d) :: rest, off =>
    let st := streamingReadStep buf dn off d
    let next := runSession rest st.2
    (st.1.bytesOut ++ next.1, next.2)

/-- Bytes a session reads form the contiguous slice of the final log
between the starting and final cursors, whenever every observed snapshot
is a well-formed prefix of the final log. -/
theorem runSession_take (final : List Nat) :
    ∀ (sess : List (LockedBuffer × Bool × Nat)) (off : Nat),
      (∀ p ∈ sess, p.1.n = p.1.b.length ∧ p.1.b <+: final) →
      final.take off ++ (runSession sess off).1 = final.take (runSession sess off).2 := by
  intro sess
  induction sess with
  | nil => intro off _; simp [runSession]
  | cons hd rest ih =>
    intro off h
    obtain ⟨buf, dn, d⟩ := hd
    have hbuf := h _ (List.mem_cons_self _ _)
    have hrest : ∀ p ∈ rest, p.1.n = p.1.b.length ∧ p.1.b <+: final :=
      fun p hp => h p (List.mem_cons_of_mem _ hp)
    by_cases hoff : off < buf.len
    · have hoffn : off < buf.n := hoff
      have hwfb : buf.n = buf.b.length := hbuf.1
      have hpre : buf.b <+: final := hbuf.2
      have hL : buf.b.length ≤ final.length := hpre.length_le
      have hBeq : buf.b = final.take buf.b.length := List.prefix_iff_eq_take.mp hpre
      have hchunk : (buf.b.drop off).take d
          = (final.drop off).take (min d (buf.b.length - off)) := by
        conv_lhs => rw [hBeq]
        rw [List.drop_take, List.take_take]
      have hck : ((buf.b.drop off).take d).length = min d (buf.b.length - off) := by
        rw [hchunk]
        simp only [List.length_take, List.length_drop]
        omega
      have hst : streamingReadStep buf dn off d =
          (.ret ((buf.b.drop off).take d) none, off + ((buf.b.drop off).take d).length) := by
        simp [streamingReadStep, streamingRead, LockedBuffer.readAt, LockedBuffer.len,
          hoffn, Nat.not_le.mpr hoffn]
      have hIH := ih (off + min d (buf.b.length - off)) hrest
      simp only [runSession, hst, ReadResult.bytesOut, hck]
      rw [← List.append_assoc]
      have htk : final.take off ++ (buf.b.drop off).take d
          = final.take (off + min d (buf.b.length - off)) := by
        rw [hchunk, ← List.take_add]
      rw [htk]
      exact hIH
    · have hstz : (streamingReadStep buf dn off d).1.bytesOut = [] ∧
          (streamingReadStep buf dn off d).2 = off := by
        rw [streamingReadStep, streamingRead, if_neg hoff]
        by_cases hdn : dn = true
        · simp [hdn, ReadResult.bytesOut]
        · simp only [Bool.not_eq_true] at hdn
          simp [hdn, ReadResult.bytesOut]
      simp only [runSession, hstz.1, hstz.2, List.nil_append]
      exact ih off hrest

/-- Claim C3: a streaming reader attached at any time, whose Read calls
each observe a well-formed prefix snapshot of the job's final log and
which runs from cursor 0 to end-of-stream, reads exactly the full byte
sequence ever appended, from the first byte; and the snapshot reader
handed out after termination carries that same byte sequence, so the two
yield identical streams. -/
theorem claim3_fanout_equality :
    ∀ (final : List Nat) (sess : List (LockedBuffer × Bool × Nat)) (jterm : Job),
      (∀ p ∈ sess, p.1.n = p.1.b.length ∧ p.1.b <+: final) →
      (runSession sess 0).2 = final.length →
      (jterm.status = .exited ∨ jterm.status = .failed ∨ jterm.status = .stopped) →
      jterm.outBuf.b = final →
      (runSession sess 0).1 = final ∧ (jterm.stream).1 = .snapshot final := by
  intro final sess jterm hpre hend ht hbuf
  constructor
  · have h := runSession_take final sess 0 hpre
    rw [hend] at h
    simpa [List.take_length] using h
  · rw [Job.stream, if_pos ht]
    simp [LockedBuffer.bytes, hbuf]

/-- A terminal job over the three-byte log, used to instantiate C3. -/
def termJob : Job :=
  { runningJob with status := .exited, outBuf := { b := [1, 2, 3], n := 3 } }

/-- A sample live-read session: one Read against a one-byte snapshot, one
against the full three-byte log after the latch fired. -/
def sessSample : List (LockedBuffer × Bool × Nat) :=
  [({ b := [1], n := 1 }, false, 2), ({ b := [1, 2, 3], n := 3 }, true, 5)]

theorem claim3_witness :
    (runSession sessSample 0).1 = [1, 2, 3] ∧ (termJob.stream).1 = .snapshot [1, 2, 3] :=
  claim3_fanout_equality [1, 2, 3] sessSample termJob (by decide) (by decide)
    (Or.inl rfl) rfl

/-- Constants from cgroup.go. -/
def defaultCPUPercent : Nat := 50

/-- 1 GB hard memory ceiling (cgroup.go). -/
def defaultMemBytes : Nat := 1 * 1024 * 1024 * 1024

/-- 10 MB/s IO throttle (cgroup.go). -/
def defaultIOBps : Nat := 10 * 1024 * 1024

/-- cgroup interface file names (cgroup.go). -/
def cpuMaxFile : String := "cpu.max"

/-- The memory interface file name. -/
def memoryMaxFile : String := "memory.max"

/-- The io interface file name. -/
def ioMaxFile : String := "io.max"

/-- `getRootBlockDevice`'s result: "major:minor" of the device backing "/". -/
def deviceString (major minor : Nat) : String :=
  toString major ++ (":" ++ toString minor)

/-- `fmt.Sprintf("%d 100000", defaultCPUPercent*1000)` from `setLimits`. -/
def cpuLine : String := toString (defaultCPUPercent * 1000) ++ " 100000"

/-- `fmt.Sprintf("%d", defaultMemBytes)` from `setLimits`. -/
def memLine : String := toString defaultMemBytes

/-- `fmt.Sprintf("%s rbps=%d wbps=%d\n", device, defaultIOBps, defaultIOBps)`
from `setLimits` — note the trailing newline in the format string. -/
def ioLine (device : String) : String :=
  device ++ (" rbps=" ++ (toString defaultIOBps ++ (" wbps=" ++ (toString defaultIOBps ++ "\n"))))

/-- The (file, content) writes `cgroupv2.setLimits` performs, in order. -/
def setLimitsWrites (device : String) : List (String × String) :=
  [(cpuMaxFile, cpuLine), (memoryMaxFile, memLine), (ioMaxFile, ioLine device)]

/-- `cgroupv2.setLimits` with a write oracle: each `os.WriteFile` either
succeeds or fails, and the first failure aborts with an error. -/
def setLimits (device : String) (writeOk : String → String → Bool) : Except String Unit :=
  if writeOk cpuMaxFile cpuLine = false then .error "write cpu.max"
  else if writeOk memoryMaxFile memLine = false then .error "write memory.max"
  else if writeOk ioMaxFile (ioLine device) = false then .error "write io.max"
  else .ok ()

/-- `newJob` from job.go: create the cgroup, apply the limits (a failure
propagates as "set limits: ..."), then build the fresh record. -/
def newJobE (id cmd : String) (args : List String) (device : String)
    (writeOk : String → String → Bool) : Except String Job :=
  match setLimits device writeOk with
  | .error e => .error ("set limits: " ++ e)
  | .ok _ => .ok (mkJob id cmd args)

/-- `JobManager.StartJob` from jobmanager.go: build the job (a cgroup or
limit failure propagates), start it (`startOk` is the spawn oracle; on
success the status becomes running and the job enters the registry). -/
def JobManager.startJob (jm : JobManager) (jobID cmd : String) (args : List String)
    (device : String) (writeOk : String → String → Bool) (startOk : Bool) :
    Except String (String × JobManager) :=
  match newJobE jobID cmd args device writeOk with
  | .error e => .error e
  | .ok j =>
    if startOk then
      .ok (jobID, { jobs := jm.jobs ++ [(jobID, { j with status := .running })] })
    else .error ("failed to start job " ++ jobID)

/-- Claim C9 counterexample: the io.max content the code writes for device
8:0 is not the exact string the claim names — it carries a trailing
newline (unlike the cpu.max and memory.max contents). -/
theorem claim9_counterexample :
    ioLine (deviceString 8 0) ≠ "8:0 rbps=10485760 wbps=10485760" ∧
    ioLine (deviceString 8 0) = "8:0 rbps=10485760 wbps=10485760\n" := by
  constructor
  · decide
  · decide

/-- Claim C9 (amended): apply-limits writes exactly "50000 100000" to
cpu.max, exactly "1073741824" to memory.max, and exactly
"<major>:<minor> rbps=10485760 wbps=10485760" followed by a newline to
io.max; and any write failure makes the job start fail. -/
theorem claim9_limit_contents :
    ∀ (dev : String) (writeOk : String → String → Bool),
      cpuLine = "50000 100000" ∧
      memLine = "1073741824" ∧
      ioLine dev = dev ++ " rbps=10485760 wbps=10485760\n" ∧
      ((∃ p ∈ setLimitsWrites dev, writeOk p.1 p.2 = false) →
        ∀ (jm : JobManager) (id cmd : String) (args : List String) (startOk : Bool),
          ∃ e, jm.startJob id cmd args dev writeOk startOk = .error e) := by
  intro dev writeOk
  refine ⟨by decide, by decide, ?_, ?_⟩
  · exact congrArg (fun s => dev ++ s) (by decide)
  · intro hex jm id cmd args startOk
    have herr : ∃ e, setLimits dev writeOk = .error e := by
      by_cases h1 : writeOk cpuMaxFile cpuLine = false
      · exact ⟨_, by rw [setLimits, if_pos h1]⟩
      · by_cases h2 : writeOk memoryMaxFile memLine = false
        · exact ⟨_, by rw [setLimits, if_neg h1, if_pos h2]⟩
        · by_cases h3 : writeOk ioMaxFile (ioLine dev) = false
          · exact ⟨_, by rw [setLimits, if_neg h1, if_neg h2, if_pos h3]⟩
          · exfalso
            rcases hex with ⟨p, hp, hfail⟩
            simp only [setLimitsWrites, List.mem_cons, List.not_mem_nil, or_false] at hp
            rcases hp with h | h | h <;> rw [h] at hfail <;> simp_all
    rcases herr with ⟨e, he⟩
    refine ⟨"set limits: " ++ e, ?_⟩
    simp only [JobManager.startJob, newJobE, he]
theorem claim9_witness :
    ioLine (deviceString 259 1) = deviceString 259 1 ++ " rbps=10485760 wbps=10485760\n" ∧
    ∃ e, (JobManager.mk []).startJob "job-9" "echo" ["hi"] (deviceString 259 1)
        (fun _ _ => false) true = .error e := by
  constructor
  · exact (claim9_limit_contents (deviceString 259 1) (fun _ _ => false)).2.2.1
  · exact (claim9_limit_contents (deviceString 259 1) (fun _ _ => false)).2.2.2
      ⟨(cpuMaxFile, cpuLine), by simp [setLimitsWrites], rfl⟩
      (JobManager.mk []) "job-9" "echo" ["hi"] true

end Lpaas
